import Mathlib

/-!
# Verification of the `pgd` data-discovery and query module

A shallow embedding of the `pgd` Go module (identifiers & selectors,
table/column metadata, behavior merging, the filter-operator registry,
the where-expression compiler and the query planner), together with
theorems settling the specification claims.

Modelling conventions:
* Go strings are `List Char` (`Str`); all identifiers involved are ASCII,
  so byte-wise and character-wise views coincide.
* Go maps are association lists (`List (key × value)`); `List.lookup`
  models map indexing and the list order models one possible (Go maps
  iterate in unspecified order) iteration order.
* Fallible Go functions return `GoResult α`; a Go `panic` is the
  distinguished `GoResult.panic` value, and the fuel-bounded recursion of
  the metadata flattening reports fuel exhaustion as `GoResult.timeout`.
* Error messages are abbreviated to short stable strings; `errors.Wrap`
  context prefixes are dropped, only success/failure shape is preserved.
-/

set_option maxRecDepth 4000

namespace Pgd

/-- Go strings, as lists of characters. -/

abbrev Str := List Char

/-- String-literal helper converting a Lean `String` to `Str`. -/

def S (s : String) : Str := s.toList

/-- Result of a fallible Go computation: a value, a returned `error`, a
runtime `panic`, or fuel exhaustion standing for non-termination. -/

inductive GoResult (α : Type) where
  | ok : α → GoResult α
  | error : Str → GoResult α
  | panic : GoResult α
  | timeout : GoResult α
  deriving Repr, DecidableEq

def GoResult.bind : GoResult α → (α → GoResult β) → GoResult β
  | .ok a, f => f a
  | .error e, _ => .error e
  | .panic, _ => .panic
  | .timeout, _ => .timeout

def GoResult.map (f : α → β) : GoResult α → GoResult β
  | .ok a => .ok (f a)
  | .error e => .error e
  | .panic => .panic
  | .timeout => .timeout

instance : Monad GoResult where
  pure := .ok
  bind := GoResult.bind
  map := GoResult.map

/-! ## Splitting and joining on `.` (Go `strings.Split` / `strings.Join`) -/

/-- Embeds `strings.Split(s, ".")`: splits into the (always non-empty) list of
dot-separated segments. -/

def splitDots : Str → List Str
  | [] => [[]]
  | c :: rest =>
    if c = '.' then [] :: splitDots rest
    else
      match splitDots rest with
      | s :: ss => (c :: s) :: ss
      | [] => [[c]]

/-- Embeds `strings.Join(ss, ".")`. -/

def joinDots : List Str → Str
  | [] => []
  | [s] => s
  | s :: ss => s ++ '.' :: joinDots ss

/-- Number of `.` characters in a string. -/

def countDots (l : Str) : Nat := l.count '.'

/-! ## Identifiers (src/column.go, src/unnamed/part_007)

Both name regexes are `^[a-z][a-zA-Z0-9_]{1,63}$`. -/

def isLowerAlpha (c : Char) : Bool := 'a' ≤ c && c ≤ 'z'

def isIdentChar (c : Char) : Bool :=
  ('a' ≤ c && c ≤ 'z') || ('A' ≤ c && c ≤ 'Z') || ('0' ≤ c && c ≤ '9') || c = '_'

/-- Matching against `^[a-z][a-zA-Z0-9_]{1,63}$` (all classes are ASCII, so
character count equals byte count on any string the regex can accept). -/

def nameRegexMatch (s : Str) : Bool :=
  match s with
  | [] => false
  | c :: rest =>
    isLowerAlpha c && decide (1 ≤ rest.length) && decide (rest.length ≤ 63)
      && rest.all isIdentChar

/-- Embeds `Table.IsValid` (src/unnamed/part_007). -/

def Table.IsValid (t : Str) : Bool := nameRegexMatch t

/-- Embeds `Column.IsValid` (src/column.go). -/

def Column.IsValid (c : Str) : Bool := nameRegexMatch c

/-- Embeds `Table.StringQuoted`. -/

def Table.StringQuoted (t : Str) : Str := '"' :: t ++ ['"']

/-! ## Column selectors (src/column.go) -/

/-- Embeds `ColumnSelector.GetColumns`: split on `.`. -/

def ColumnSelector.GetColumns (cs : Str) : List Str := splitDots cs

/-- Embeds `ColumnSelector.IsValid`. -/

def ColumnSelector.IsValid (cs : Str) : Bool :=
  let xs := ColumnSelector.GetColumns cs
  if xs.length = 0 then false else xs.all Column.IsValid

/-- Embeds `NewColumnSelector`: join column names with `.`. -/

def NewColumnSelector (cols : List Str) : Str := joinDots cols

/-- The segment-pairing loop of `ColumnSelectorFull.Breakdown`
(`for i := 0; i < len(xs); i += 2 { … xs[i], xs[i+1] … }`); on an odd
number of segments the access `xs[i+1]` is out of range and Go panics. -/

def pairsOf : List Str → GoResult (List Str × List Str)
  | [] => .ok ([], [])
  | [_] => .panic
  | t :: c :: rest => (pairsOf rest).map (fun p => (t :: p.1, c :: p.2))

/-- Embeds `ColumnSelectorFull.Breakdown`. -/

def ColumnSelectorFull.Breakdown (x : Str) : GoResult (List Str × List Str) :=
  pairsOf (splitDots x)

/-- The interleaving loop of `ColumnSelectorRebuild`
(`for i := range tables { xs = append(xs, tables[i], columns[i]) }`),
only reached with lists of equal length. -/

def interleavePairs : List Str → List Str → List Str
  | [], _ => []
  | _ :: _, [] => []
  | t :: ts, c :: cs => t :: c :: interleavePairs ts cs

/-- Embeds `ColumnSelectorRebuild`: panics when the lengths differ. -/

def ColumnSelectorRebuild (tables columns : List Str) : GoResult Str :=
  if tables.length ≠ columns.length then .panic
  else .ok (joinDots (interleavePairs tables columns))

/-- Split at the last `.`: `some (before, after)`, `none` when there is
no dot (where Go's `s[:idx]` with `idx = -1` panics). -/

def lastDotSplit : Str → Option (Str × Str)
  | [] => none
  | c :: rest =>
    match lastDotSplit rest with
    | some (p, suf) => some (c :: p, suf)
    | none => if c = '.' then some ([], rest) else none

/-- Embeds `ColumnSelectorFull.SplitAtLastColumn`. -/

def ColumnSelectorFull.SplitAtLastColumn (s : Str) : GoResult (Str × Str) :=
  match lastDotSplit s with
  | some pc => .ok pc
  | none => .panic

/-- Embeds `ColumnSelectorFull.ReplaceLastColumn`. -/

def ColumnSelectorFull.ReplaceLastColumn (s : Str) (c : Str) : GoResult Str :=
  match lastDotSplit s with
  | some (p, _) => .ok (p ++ '.' :: c)
  | none => .panic

/-- Embeds `ColumnSelectorFull.GetLastTable`. -/

def ColumnSelectorFull.GetLastTable (s : Str) : GoResult Str :=
  GoResult.bind (ColumnSelectorFull.Breakdown s) (fun p =>
    match p.1.getLast? with
    | some t => .ok t
    | none => .panic)

/-- Embeds `ColumnSelectorFull.StringQuoted`: `"prefix"."column"`. -/

def ColumnSelectorFull.StringQuoted (s : Str) : GoResult Str :=
  GoResult.bind (ColumnSelectorFull.SplitAtLastColumn s) (fun pc =>
    .ok ('"' :: pc.1 ++ '"' :: '.' :: '"' :: pc.2 ++ ['"']))

/-- Embeds `ColumnSelectorFull.IsValid`: non-empty, an odd number of dots, and
every table and column segment valid.  (With an odd dot count the segment
count is even, so the `Breakdown` done by the source cannot panic; the
catch-all arm is unreachable.) -/

def ColumnSelectorFull.IsValid (x : Str) : Bool :=
  if x.isEmpty then false
  else if countDots x % 2 ≠ 1 then false
  else
    match pairsOf (splitDots x) with
    | .ok (ts, cs) => ts.all Table.IsValid && cs.all Column.IsValid
    | _ => false

/-- A 63-character name: `a` followed by 62 `b`s. -/

def longName63 : Str := 'a' :: List.replicate 62 'b'

/-! ## Metadata model (src/column.go, src/table.go)

Go maps become association lists; `List.lookup` is map indexing and the
list order is the (in Go unspecified) iteration order. -/

structure ColumnRelation where
  table : Str
  column : Str
  deriving Repr, DecidableEq

structure ColumnBehavior where
  properties : List (Str × Str) := []
  allowSorting : Bool := false
  allowFiltering : Bool := false
  omitDefaultFilterOperations : Bool := false
  filterOperations : List Str := []
  deriving Repr, DecidableEq

structure ColumnMetadata where
  name : Str
  dataType : Str
  isNullable : Bool
  relation : Option ColumnRelation := none
  behavior : ColumnBehavior := {}
  deriving Repr, DecidableEq

structure TableBehavior where
  properties : List (Str × Str) := []
  deriving Repr, DecidableEq

structure TableMetadata where
  name : Str
  columns : List (Str × ColumnMetadata)
  behavior : TableBehavior := {}
  deriving Repr, DecidableEq

abbrev TablesMetadata := List (Str × TableMetadata)

/-- Embeds `ColumnMetadata.Validate`, success as `true`. -/

def ColumnMetadata.ValidateB (c : ColumnMetadata) : Bool :=
  !c.name.isEmpty && Column.IsValid c.name && !c.dataType.isEmpty

/-- Embeds `TableMetadata.Validate`, success as `true`. -/

def TableMetadata.ValidateB (t : TableMetadata) : Bool :=
  !t.name.isEmpty && Table.IsValid t.name && !t.columns.isEmpty &&
    t.columns.all (fun p => p.2.ValidateB && p.1 == p.2.name)

/-- Embeds `TablesMetadata.Validate`, success as `true`: per-table validity plus
resolution and data-type equality of every column relation. -/

def TablesMetadata.ValidateB (ts : TablesMetadata) : Bool :=
  ts.all (fun pt =>
    pt.2.ValidateB && pt.1 == pt.2.name &&
    pt.2.columns.all (fun pc =>
      match pc.2.relation with
      | none => true
      | some r =>
        match ts.lookup r.table with
        | none => false
        | some ft =>
          match ft.columns.lookup r.column with
          | none => false
          | some fc => pc.2.dataType == fc.dataType))

/-- Go map assignment `result[c] = colMeta` on the association list. -/

def mapInsert (m : List (Str × ColumnMetadata)) (k : Str) (v : ColumnMetadata) :
    List (Str × ColumnMetadata) :=
  if m.any (fun p => p.1 == k) then m.map (fun p => if p.1 == k then (k, v) else p)
  else m ++ [(k, v)]

/-- The per-table column loop of `TablesMetadata.flattenColumns`,
abstracted over the relation recursion `recur` (the source recurses into
`flattenColumns` for every relation, with no cycle guard). -/

def flattenColsGo
    (recur : List (Str × ColumnMetadata) → List Str → Str →
      GoResult (List (Str × ColumnMetadata))) :
    List (Str × ColumnMetadata) → List Str → List (Str × ColumnMetadata) →
      GoResult (List (Str × ColumnMetadata))
  | result, _, [] => .ok result
  | result, parents, (column, colMeta) :: rest =>
    let cols := parents ++ [column]
    let result2 := mapInsert result (NewColumnSelector cols) colMeta
    match colMeta.relation with
    | none => flattenColsGo recur result2 parents rest
    | some r =>
      match recur result2 cols r.table with
      | .ok result3 => flattenColsGo recur result3 parents rest
      | .error e => .error e
      | .panic => .panic
      | .timeout => .timeout

/-- Embeds `TablesMetadata.flattenColumns`, bounded by fuel: the source recursion
has no cycle guard, so each relation recursion consumes one unit of fuel
and exhaustion is reported as `.timeout`. -/

def flattenFuel (ts : TablesMetadata) :
    Nat → List (Str × ColumnMetadata) → List Str → Str →
      GoResult (List (Str × ColumnMetadata))
  | 0, _, _, _ => .timeout
  | n + 1, result, parents, table =>
    match ts.lookup table with
    | none => .error (S "table not found")
    | some tm => flattenColsGo (flattenFuel ts n) result parents tm.columns

/-- Embeds `TablesMetadata.FlattenColumns`, bounded by fuel. -/

def FlattenColumnsFuel (ts : TablesMetadata) (n : Nat) (baseTable : Str) :
    GoResult (List (Str × ColumnMetadata)) :=
  flattenFuel ts n [] [] baseTable

/-- Holds when `FlattenColumns` terminates on some fuel. -/

def FlattenTerminates (ts : TablesMetadata) (baseTable : Str) : Prop :=
  ∃ n, FlattenColumnsFuel ts n baseTable ≠ .timeout

/-- The relation-walking loop of `TablesMetadata.ConvertColumnSelector`:
at each non-final column a relation must exist and provides the next
table; returns the accumulated table list. -/

def convertLoop (ts : TablesMetadata) : Str → List Str → GoResult (List Str)
  | _, [] => .ok []
  | table, [c] =>
    match ts.lookup table with
    | none => .error (S "table not found in table metadata")
    | some tm =>
      match tm.columns.lookup c with
      | none => .error (S "table does not have column")
      | some _ => .ok [table]
  | table, c :: c2 :: rest =>
    match ts.lookup table with
    | none => .error (S "table not found in table metadata")
    | some tm =>
      match tm.columns.lookup c with
      | none => .error (S "table does not have column")
      | some tc =>
        match tc.relation with
        | none => .error (S "column should have some relation")
        | some r => (convertLoop ts r.table (c2 :: rest)).map (fun l => table :: l)

/-- Embeds `TablesMetadata.ConvertColumnSelector`: lift `c1.c2.….cn` to the full
form `base.c1.t2.c2.….tn.cn`; the explicit length check precedes the
`ColumnSelectorRebuild` call exactly as in the source. -/

def TablesMetadata.ConvertColumnSelector (ts : TablesMetadata)
    (baseTable : Str) (cs : Str) : GoResult Str :=
  let columns := ColumnSelector.GetColumns cs
  if columns.length = 0 then .error (S "invalid columns")
  else
    GoResult.bind (convertLoop ts baseTable columns) (fun tables =>
      if tables.length ≠ columns.length then .error (S "internal error")
      else ColumnSelectorRebuild tables columns)

/-- Embeds `TablesMetadata.ConvertColumnSelectors`. -/

def TablesMetadata.ConvertColumnSelectors (ts : TablesMetadata)
    (baseTable : Str) : List Str → GoResult (List Str)
  | [] => .ok []
  | c :: rest =>
    GoResult.bind (TablesMetadata.ConvertColumnSelector ts baseTable c) (fun x =>
      (TablesMetadata.ConvertColumnSelectors ts baseTable rest).map (fun l => x :: l))

/-! ## Claim C2: termination of `FlattenColumns` -/

/-- A self-referencing column: `aa.ra` is a foreign key into `aa.ra`. -/

def cycColumn : ColumnMetadata :=
  { name := S "ra", dataType := S "integer", isNullable := false,
    relation := some { table := S "aa", column := S "ra" } }

/-- A catalog whose single table references itself; it passes
`TablesMetadata.Validate`. -/

def cycCatalog : TablesMetadata :=
  [(S "aa", { name := S "aa", columns := [(S "ra", cycColumn)] })]

/-- Ranks strictly decreasing along every relation edge: an acyclicity
certificate for the relation graph of a catalog. -/

def rankDecreasingB (ts : TablesMetadata) (rank : Str → Nat) : Bool :=
  ts.all (fun pt => pt.2.columns.all (fun pc =>
    match pc.2.relation with
    | none => true
    | some r => decide (rank r.table < rank pt.1)))

/-- A two-table acyclic catalog: `aa.rb` references `bb.id`. -/

def acyCatalog : TablesMetadata :=
  [(S "aa", { name := S "aa", columns :=
      [(S "rb", { name := S "rb", dataType := S "integer", isNullable := false,
                  relation := some { table := S "bb", column := S "id" } })] }),
   (S "bb", { name := S "bb", columns :=
      [(S "id", { name := S "id", dataType := S "integer", isNullable := false })] })]

def acyRank : Str → Nat := fun t => if t = S "aa" then 1 else 0

/-! ## Behavior merging (src/unnamed/part_003) -/

/-- Lexicographic (byte-wise, as Go compares strings) order on `Str`. -/

def strLeB : Str → Str → Bool
  | [], _ => true
  | _ :: _, [] => false
  | a :: as, b :: bs => if a < b then true else if b < a then false else strLeB as bs

/-- Sortedness under the byte-wise order. -/

def StrSorted (l : List Str) : Prop := l.Pairwise (fun a b => strLeB a b = true)

/-- One step of insertion sort. -/

def insertSorted (x : Str) : List Str → List Str
  | [] => [x]
  | y :: ys => if strLeB x y then x :: y :: ys else y :: insertSorted x ys

/-- Ascending sort; `slices.Sort` in Go sorts ascending, and since a sorted
permutation of a list is unique up to equal elements, insertion sort
computes the same list. -/

def sortStrs : List Str → List Str
  | [] => []
  | x :: xs => insertSorted x (sortStrs xs)

/-- The dedup loop of `uniqueSliceString` with its `seen` set. -/

def uniqueLoop (seen : List Str) : List Str → List Str
  | [] => []
  | x :: xs =>
    if seen.contains x then uniqueLoop seen xs
    else x :: uniqueLoop (x :: seen) xs

/-- Embeds `uniqueSliceString`: drop duplicates keeping first occurrences, then
sort ascending. -/

def uniqueSliceString (xs : List Str) : List Str := sortStrs (uniqueLoop [] xs)

/-- An abstract well-formed column-comment JSON document: a field is
`some v` exactly when its key is textually present in the comment.  (Go
observes presence through the generic map `m` and reads values through the
typed unmarshal into `b`; an absent key leaves the zero value in `b`,
which the merge below overwrites from the default — `Option.getD` captures
both steps at once.  A malformed comment returns early in Go and is
outside this model.) -/

structure CommentJSON where
  properties : Option (List (Str × Str)) := none
  allowSorting : Option Bool := none
  allowFiltering : Option Bool := none
  omitDefaultFilterOperations : Option Bool := none
  filterOperations : Option (List Str) := none
  deriving Repr, DecidableEq

/-- Embeds `API.parseAndMergeColumnBehavior` (src/unnamed/part_003): look up the
data-type default; a nil or empty comment returns the default unchanged;
otherwise merge field-wise by key presence, append default operations
unless omitted, dedupe and sort, and clear when filtering is disallowed. -/

def parseAndMergeColumnBehavior (columnDefaults : List (Str × ColumnBehavior))
    (dataType : Str) (raw : Option CommentJSON) : GoResult ColumnBehavior :=
  match columnDefaults.lookup dataType with
  | none => .error (S "no column defaults for data type")
  | some d =>
    match raw with
    | none => .ok d
    | some c =>
      let b : ColumnBehavior := {
        properties := c.properties.getD []
        allowSorting := c.allowSorting.getD d.allowSorting
        allowFiltering := c.allowFiltering.getD d.allowFiltering
        omitDefaultFilterOperations :=
          c.omitDefaultFilterOperations.getD d.omitDefaultFilterOperations
        filterOperations := c.filterOperations.getD d.filterOperations }
      let b2 := if !b.omitDefaultFilterOperations
        then { b with filterOperations := b.filterOperations ++ d.filterOperations }
        else b
      let b3 := { b2 with filterOperations := uniqueSliceString b2.filterOperations }
      let b4 := if !b3.allowFiltering then { b3 with filterOperations := [] } else b3
      .ok b4

/-! ## Claim C3: behavior merging -/

/-- A data-type default with filtering disallowed but a non-empty
operation list; `Config.Validate` accepts such defaults (it only checks
the registration of each named operation, and the
`allowFiltering && len == 0` rule does not fire when `allowFiltering`
is false). -/

def pathologicalDefault : ColumnBehavior :=
  { allowFiltering := false, filterOperations := [S "equals"] }

/-! ## Filter operator registry (src/unnamed/part_008)

`squirrel` fragments are modelled as an AST: `sq.Eq{c: nil}` renders
`c IS NULL` and `sq.NotEq{c: nil}` renders `c IS NOT NULL` (squirrel
special-cases nil), all other leaves render `c <op> ?` with a bind value.
Go `any` values are modelled by the `Value` shapes the module uses. -/

inductive Value where
  | null
  | int (i : Int)
  | str (s : Str)
  | bool (b : Bool)
  deriving Repr, DecidableEq

inductive Sqlizer where
  | eq (column : Str) (v : Value)
  | notEq (column : Str) (v : Value)
  | gt (column : Str) (v : Value)
  | gtOrEq (column : Str) (v : Value)
  | lt (column : Str) (v : Value)
  | ltOrEq (column : Str) (v : Value)
  | ilike (column : Str) (pat : Str)
  | notILike (column : Str) (pat : Str)
  | expr (sql : Str) (v : Value)
  | and (ps : List Sqlizer)
  | or (ps : List Sqlizer)

/-- SQL `ILIKE` pattern matching: case-insensitive, `%` matches any
substring (the module's patterns only ever contain `%` wildcards). -/

def likeMatch : Str → Str → Bool
  | [], [] => true
  | [], _ :: _ => false
  | '%' :: ps, s =>
    likeMatch ps s ||
      (match s with
       | [] => false
       | _ :: s2 => likeMatch ('%' :: ps) s2)
  | _ :: _, [] => false
  | p :: ps, c :: s => (p.toLower = c.toLower) && likeMatch ps s
termination_by p s => (p.length, s.length)

/-- SQL comparison of two non-null values; `none` on mixed types. -/

def compareValues : Value → Value → Option Ordering
  | .int x, .int y => some (compare x y)
  | .str x, .str y =>
    some (if strLeB x y then (if strLeB y x then .eq else .lt) else .gt)
  | _, _ => none

/-- Kleene conjunction on three-valued SQL booleans (`none` = unknown). -/

def and3 : Option Bool → Option Bool → Option Bool
  | some false, _ => some false
  | _, some false => some false
  | some true, some true => some true
  | _, _ => none

/-- Kleene disjunction. -/

def or3 : Option Bool → Option Bool → Option Bool
  | some true, _ => some true
  | _, some true => some true
  | some false, some false => some false
  | _, _ => none

def evalCmp (a b : Value) (f : Ordering → Bool) : Option Bool :=
  match a, b with
  | .null, _ => none
  | _, .null => none
  | x, y => (compareValues x y).map f

mutual
/-- Three-valued SQL semantics of a predicate on a single row (a column
valuation); a row satisfies a `WHERE` clause iff this is `some true`.
`expr` fragments are uninterpreted (`none`). -/
def evalSqlizer (row : Str → Value) : Sqlizer → Option Bool
  | .eq c v =>
    match v with
    | .null => some (row c == .null)
    | v' =>
      match row c with
      | .null => none
      | rv => some (rv == v')
  | .notEq c v =>
    match v with
    | .null => some (!(row c == .null))
    | v' =>
      match row c with
      | .null => none
      | rv => some (!(rv == v'))
  | .gt c v => evalCmp (row c) v (fun o => o == .gt)
  | .gtOrEq c v => evalCmp (row c) v (fun o => !(o == .lt))
  | .lt c v => evalCmp (row c) v (fun o => o == .lt)
  | .ltOrEq c v => evalCmp (row c) v (fun o => !(o == .gt))
  | .ilike c pat =>
    match row c with
    | .str s => some (likeMatch pat s)
    | _ => none
  | .notILike c pat =>
    match row c with
    | .str s => some (!likeMatch pat s)
    | _ => none
  | .expr _ _ => none
  | .and ps => evalAnd row ps
  | .or ps => evalOr row ps

def evalAnd (row : Str → Value) : List Sqlizer → Option Bool
  | [] => some true
  | p :: ps => and3 (evalSqlizer row p) (evalAnd row ps)

def evalOr (row : Str → Value) : List Sqlizer → Option Bool
  | [] => some false
  | p :: ps => or3 (evalSqlizer row p) (evalOr row ps)
end

/-- One registry level: operator name to predicate compiler. -/

abbrev OpMap := List (Str × (Str → Value → GoResult Sqlizer))

/-- Embeds `EqualsFilterOperations`. -/

def EqualsFilterOperations : OpMap :=
  [(S "equals", fun c v => .ok (.eq c v)),
   (S "notEquals", fun c v => .ok (.notEq c v))]

/-- Embeds `CompareFilterOperations`: always false when comparing to null. -/

def CompareFilterOperations : OpMap :=
  [(S "greater", fun c v => .ok (.and [.notEq c .null, .gt c v])),
   (S "greaterOrEquals", fun c v => .ok (.and [.notEq c .null, .gtOrEq c v])),
   (S "less", fun c v => .ok (.and [.notEq c .null, .lt c v])),
   (S "lessOrEquals", fun c v => .ok (.and [.notEq c .null, .ltOrEq c v]))]

/-- Embeds `NumberZeroFilterOperations`. -/

def NumberZeroFilterOperations : OpMap :=
  [(S "isSpecified", fun c _ => .ok (.and [.notEq c .null, .notEq c (.int 0)])),
   (S "isNotSpecified", fun c _ => .ok (.or [.eq c .null, .eq c (.int 0)]))]

/-- Embeds `TextFilterOperations`. -/

def TextFilterOperations : OpMap :=
  [(S "contains", fun c v =>
      match v with
      | .str s => .ok (.and [.notEq c .null, .ilike c (S "%" ++ s ++ S "%")])
      | _ => .error (S "only supported for string")),
   (S "endsWith", fun c v =>
      match v with
      | .str s => .ok (.and [.notEq c .null, .ilike c (S "%" ++ s)])
      | _ => .error (S "only supported for string")),
   (S "notContains", fun c v =>
      match v with
      | .str s => .ok (.or [.eq c .null, .notILike c (S "%" ++ s ++ S "%")])
      | _ => .error (S "only supported for string")),
   (S "isNotSpecified", fun c _ => .ok (.or [.eq c .null, .eq c (.str [])])),
   (S "isSpecified", fun c _ => .ok (.and [.notEq c .null, .notEq c (.str [])])),
   (S "startsWith", fun c v =>
      match v with
      | .str s => .ok (.and [.notEq c .null, .ilike c (s ++ S "%")])
      | _ => .error (S "only supported for string"))]

/-- Embeds `TimestampFilterOperations` (there is no empty value for timestamp). -/

def TimestampFilterOperations : OpMap :=
  [(S "after", fun c v => .ok (.and [.notEq c .null, .gt c v])),
   (S "before", fun c v => .ok (.and [.notEq c .null, .lt c v])),
   (S "isNotSpecified", fun c _ => .ok (.eq c .null)),
   (S "isSpecified", fun c _ => .ok (.notEq c .null))]

/-- Embeds `ArrayFilterOperations`. -/

def ArrayFilterOperations : OpMap :=
  [(S "containsElement", fun c v =>
      .ok (.and [.notEq c .null, .expr (S "? = ANY (" ++ c ++ S ")") v])),
   (S "hasAnyElement", fun c v =>
      .ok (.and [.notEq c .null, .expr (S "CARDINALITY(" ++ c ++ S ")>0") v])),
   (S "hasNoElements", fun c v =>
      .ok (.or [.eq c .null, .expr (S "CARDINALITY(" ++ c ++ S ")=0") v])),
   (S "notContainsElement", fun c v =>
      .ok (.or [.eq c .null, .expr (S "NOT (? = ANY (" ++ c ++ S "))") v]))]

/-- Apply a registered compiler by operator name. -/

def applyFilterOp (ops : OpMap) (name : Str) (c : Str) (v : Value) :
    Option (GoResult Sqlizer) :=
  (ops.lookup name).map (fun f => f c v)

/-! ## Where expressions and queries (src/unnamed/part_007, part_008) -/

structure Filter where
  column : Str
  operator : Str
  value : Value

/-- Embeds `WhereExpression`: the Go struct carries all three fields at once;
validation enforces that exactly one is set. -/

inductive WhereExpression where
  | mk (andList : List WhereExpression) (orList : List WhereExpression)
      (filter : Option Filter)

/-- Embeds `Filter.Validate`, success as `true`. -/

def Filter.validateB (f : Filter) : Bool :=
  ColumnSelector.IsValid f.column && !f.operator.isEmpty

mutual
/-- Embeds `WhereExpression.validate`, success as `true`: recursively valid and
exactly one of filter/and/or set at every node. -/
def WhereExpression.validateB : WhereExpression → Bool
  | .mk andList orList filter =>
    (match filter with
     | some f => f.validateB
     | none => true) &&
    whereListValidateB andList && whereListValidateB orList &&
    ((if filter.isSome then 1 else 0) + (if andList.length > 0 then 1 else 0)
      + (if orList.length > 0 then 1 else 0) == 1)

def whereListValidateB : List WhereExpression → Bool
  | [] => true
  | e :: rest => e.validateB && whereListValidateB rest
end

structure OrderByExpression where
  columnSelector : Str
  isDescending : Bool

structure Query where
  select : List Str
  from_ : Str
  where_ : Option WhereExpression
  orderBy : List OrderByExpression
  limit : Nat
  offset : Nat

/-- Embeds `Query.Validate` (src/unnamed/part_007). -/

def Query.Validate (q : Query) : GoResult Unit :=
  if q.select.isEmpty then .error (S "missing select")
  else if !(Table.IsValid q.from_) then .error (S "invalid from")
  else if !(match q.where_ with
            | some w => w.validateB
            | none => true) then .error (S "invalid filter expression")
  else if q.limit < 1 then .error (S "invalid limit")
  else .ok ()

/-! ## Configuration (src/unnamed/part_001, part_003) -/

def maxLimit : Nat := 1000

def defaultLimitConst : Nat := 200

def defaultSchema : Str := S "public"

/-- The two-level registry `FilterOperations : DataType → operator →
compiler`. -/

abbrev FilterOperations := List (Str × OpMap)

structure Config where
  schema : Str
  defaultLimit : Nat
  filterOperations : FilterOperations
  columnDefaults : List (Str × ColumnBehavior)

/-- The per-default registration loop of `Config.Validate`. -/

def checkOpsRegistered (fops : FilterOperations) (dataType : Str) :
    List Str → GoResult Unit
  | [] => .ok ()
  | f :: rest =>
    match fops.lookup dataType with
    | none => .error (S "filterOperation for data type is not present")
    | some ops =>
      match ops.lookup f with
      | none => .error (S "filterOperation is not registered")
      | some _ => checkOpsRegistered fops dataType rest

def validateColumnDefault (c : Config) (p : Str × ColumnBehavior) : GoResult Unit :=
  GoResult.bind (checkOpsRegistered c.filterOperations p.1 p.2.filterOperations)
    (fun _ =>
      if p.2.allowFiltering && p.2.filterOperations.isEmpty
          && ((c.filterOperations.lookup p.1).getD []).isEmpty
      then .error (S "allowFiltering is set, but filterOperations and default filter operations are both empty")
      else .ok ())

def columnDefaultsLoop (c : Config) : List (Str × ColumnBehavior) → GoResult Unit
  | [] => .ok ()
  | p :: rest =>
    GoResult.bind (validateColumnDefault c p) (fun _ => columnDefaultsLoop c rest)

/-- Embeds `Config.Validate` (src/unnamed/part_001). -/

def Config.Validate (c : Config) : GoResult Unit :=
  if c.schema.isEmpty then .error (S "schema cannot be empty")
  else if c.defaultLimit == 0 then .error (S "defaultLimit not set")
  else if c.defaultLimit > maxLimit then .error (S "defaultLimit above maxLimit")
  else if c.filterOperations.isEmpty then .error (S "filterOperations empty")
  else columnDefaultsLoop c c.columnDefaults

/-- Embeds `NewAPI` (src/unnamed/part_003): fill schema and defaultLimit when
unset, then validate; the returned API carries the filled config. -/

def NewAPI (c : Config) : GoResult Config :=
  let c1 := if c.schema.isEmpty then { c with schema := defaultSchema } else c
  let c2 := if c1.defaultLimit == 0
    then { c1 with defaultLimit := defaultLimitConst } else c1
  GoResult.bind c2.Validate (fun _ => .ok c2)

/-! ## Where-expression compiler (src/unnamed/part_008, `toSQL`) -/

/-- Insertion-ordered set `Add`. -/

def addSet (s : List Str) (x : Str) : List Str :=
  if s.contains x then s else s ++ [x]

/-- Insertion-ordered set `AddSets`. -/

def addSets (s : List Str) (xs : List Str) : List Str := xs.foldl addSet s

mutual
/-- Embeds `WhereExpression.toSQL`: compile to a predicate plus the referenced
full selectors.  Each invocation re-runs `FlattenColumns` (bounded here by
`fuel`); a missing selector yields the Go zero value, i.e. the empty data
type, exactly as `colSelectors[f.Column].DataType` does. -/
def toSQLExpr (fuel : Nat) (filterOps : FilterOperations)
    (tables : TablesMetadata) (baseTable : Str) :
    WhereExpression → GoResult (Sqlizer × List Str)
  | .mk andList orList filter =>
    GoResult.bind (FlattenColumnsFuel tables fuel baseTable) (fun colSelectors =>
      match filter with
      | some f =>
        let dt := ((colSelectors.lookup f.column).map (·.dataType)).getD []
        match ((filterOps.lookup dt).getD []).lookup f.operator with
        | none => .error (S "unsupported filter operation")
        | some op =>
          GoResult.bind (tables.ConvertColumnSelectors baseTable [f.column])
            (fun cbs =>
              match cbs with
              | [] => .panic
              | cb :: _ =>
                GoResult.bind (ColumnSelectorFull.StringQuoted cb) (fun cq =>
                  GoResult.bind (op cq f.value) (fun x => .ok (x, [cb]))))
      | none =>
        if andList.length > 0 then
          (toSQLList fuel filterOps tables baseTable andList).map
            (fun pc => (.and pc.1, pc.2))
        else if orList.length > 0 then
          (toSQLList fuel filterOps tables baseTable orList).map
            (fun pc => (.or pc.1, pc.2))
        else .error (S "invalid where expression"))

def toSQLList (fuel : Nat) (filterOps : FilterOperations)
    (tables : TablesMetadata) (baseTable : Str) :
    List WhereExpression → GoResult (List Sqlizer × List Str)
  | [] => .ok ([], [])
  | e :: rest =>
    GoResult.bind (toSQLExpr fuel filterOps tables baseTable e) (fun pc =>
      (toSQLList fuel filterOps tables baseTable rest).map
        (fun pcs => (pc.1 :: pcs.1, pc.2 ++ pcs.2)))
end

/-! ## Join synthesis (src/unnamed/part_007, `processJoins`) -/

structure TableJoin where
  useLeftJoin : Bool
  fromSel : Str
  toSel : Str
  deriving Repr, DecidableEq

/-- Go slice indexing: panics out of range. -/

def idx (l : List Str) (i : Nat) : GoResult Str :=
  match l.get? i with
  | some x => .ok x
  | none => .panic

/-- The inner `for i := range len(ts)-1` loop of `processJoins`:
`k` counts the remaining iterations, `i` is the loop index, `parentNull`
and the `alreadyJoined` prefix set thread through.  Note that the
`continue` on an already-joined prefix skips the
`parentNull = parentNull || sourceCol.IsNullable` update, exactly as the
source does. -/

def joinSteps (tables : TablesMetadata) (tsL colsL : List Str) :
    Nat → Nat → Bool → List Str → GoResult (Bool × List Str × List TableJoin)
  | 0, _, parentNull, aj => .ok (parentNull, aj, [])
  | k + 1, i, parentNull, aj =>
    GoResult.bind (ColumnSelectorRebuild (tsL.take (i + 1)) (colsL.take (i + 1)))
      (fun source =>
    GoResult.bind (ColumnSelectorRebuild (tsL.take (i + 2)) (colsL.take (i + 2)))
      (fun target =>
    GoResult.bind (ColumnSelectorFull.SplitAtLastColumn target) (fun pc =>
      if aj.contains pc.1 then joinSteps tables tsL colsL k (i + 1) parentNull aj
      else
        let aj2 := pc.1 :: aj
        GoResult.bind (idx tsL i) (fun ti =>
          match tables.lookup ti with
          | none => .error (S "invalid (source) table")
          | some sourceTable =>
            GoResult.bind (idx colsL i) (fun ci =>
              match sourceTable.columns.lookup ci with
              | none => .error (S "invalid (source) column")
              | some sourceCol =>
                GoResult.bind (idx tsL (i + 1)) (fun ti1 =>
                  match tables.lookup ti1 with
                  | none => .error (S "invalid foreign table")
                  | some targetTable =>
                    match sourceCol.relation with
                    | none => .error (S "invalid foreign column, no relation")
                    | some r =>
                      if r.table ≠ targetTable.name
                      then .error (S "foreign table does not match")
                      else
                        let parentNull2 := parentNull || sourceCol.isNullable
                        GoResult.bind
                          (ColumnSelectorFull.ReplaceLastColumn target r.column)
                          (fun toSel =>
                            (joinSteps tables tsL colsL k (i + 1) parentNull2 aj2).map
                              (fun res => (res.1, res.2.1,
                                { useLeftJoin := parentNull2, fromSel := source,
                                  toSel := toSel } :: res.2.2)))))))))

/-- The outer `for c := range columnsUsed` loop of `processJoins`; the
input list is the iteration order of the (in Go unordered) set. -/

def processJoinsGo (tables : TablesMetadata) :
    List Str → List Str → GoResult (List TableJoin)
  | [], _ => .ok []
  | c :: rest, aj =>
    GoResult.bind (ColumnSelectorFull.Breakdown c) (fun p =>
      if p.1.length = 1 then processJoinsGo tables rest aj
      else
        GoResult.bind (joinSteps tables p.1 p.2 (p.1.length - 1) 0 false aj)
          (fun res =>
            (processJoinsGo tables rest res.2.1).map (fun js => res.2.2 ++ js)))

/-- Embeds `processJoins` (src/unnamed/part_007). -/

def processJoins (tables : TablesMetadata) (columnsUsed : List Str) :
    GoResult (List TableJoin) :=
  processJoinsGo tables columnsUsed []

/-! ## Paired page/total query building (src/unnamed/part_007,
`convertQuery`)

`squirrel.SelectBuilder` is modelled by its accumulated parts; join
clauses are `(isLeftJoin, rendered expression)` pairs in append order. -/

structure SelectBuilder where
  selectCols : List Str
  fromTable : Str
  joins : List (Bool × Str)
  whereP : Option Sqlizer
  orderBys : List Str
  limit : Option Nat
  offset : Option Nat

/-- Quote each selected full selector, in order. -/

def quoteAll : List Str → GoResult (List Str)
  | [] => .ok []
  | c :: rest =>
    GoResult.bind (ColumnSelectorFull.StringQuoted c) (fun q =>
      (quoteAll rest).map (fun l => q :: l))

/-- The `if query.Where != nil` block of `convertQuery`: compile the
expression, add its predicate to both builders, union its referenced
selectors into `columnsUsed`. -/

def applyWhere (fuel : Nat) (filterOps : FilterOperations)
    (tables : TablesMetadata) (query : Query) (columnsUsed : List Str)
    (qPage qTotal : SelectBuilder) :
    GoResult (List Str × SelectBuilder × SelectBuilder) :=
  match query.where_ with
  | none => .ok (columnsUsed, qPage, qTotal)
  | some w =>
    GoResult.bind (toSQLExpr fuel filterOps tables query.from_ w) (fun qc =>
      .ok (addSets columnsUsed qc.2,
        { qPage with whereP := some qc.1 },
        { qTotal with whereP := some qc.1 }))

/-- The `for _, j := range joins` loop: render each join clause and append
it, with the same left/inner flag, to both builders. -/

def appendJoins : List TableJoin → SelectBuilder → SelectBuilder →
    GoResult (SelectBuilder × SelectBuilder)
  | [], qp, qt => .ok (qp, qt)
  | j :: rest, qp, qt =>
    GoResult.bind (ColumnSelectorFull.SplitAtLastColumn j.toSel) (fun pc =>
      GoResult.bind (ColumnSelectorFull.GetLastTable j.toSel) (fun lastT =>
        GoResult.bind (ColumnSelectorFull.StringQuoted j.fromSel) (fun fq =>
          GoResult.bind (ColumnSelectorFull.StringQuoted j.toSel) (fun tq =>
            let joinExpr := '"' :: lastT ++ '"' :: (S " AS ") ++ '"' :: pc.1
              ++ '"' :: (S " ON ") ++ fq ++ (S " = ") ++ tq
            appendJoins rest
              { qp with joins := qp.joins ++ [(j.useLeftJoin, joinExpr)] }
              { qt with joins := qt.joins ++ [(j.useLeftJoin, joinExpr)] }))))

/-- The `for _, c := range query.OrderBy` loop: resolve, require
membership in `columnsUsed`, and append (page builder only), with
` DESC` when descending. -/

def applyOrderBys (tables : TablesMetadata) (fromT : Str)
    (columnsUsed : List Str) :
    List OrderByExpression → SelectBuilder → GoResult SelectBuilder
  | [], qp => .ok qp
  | ob :: rest, qp =>
    GoResult.bind (tables.ConvertColumnSelector fromT ob.columnSelector)
      (fun cs =>
        if !(columnsUsed.contains cs)
        then .error (S "invalid order by column selector, not used in select")
        else
          GoResult.bind (ColumnSelectorFull.StringQuoted cs) (fun cq =>
            let suffix := if ob.isDescending then S " DESC" else []
            applyOrderBys tables fromT columnsUsed rest
              { qp with orderBys := qp.orderBys ++ [cq ++ suffix] }))

/-- Embeds `convertQuery` (src/unnamed/part_007): resolve the select list, build
the initial page and total builders, compile the WHERE clause into both,
synthesize joins into both, then apply ORDER BY to the page builder. -/

def convertQuery (fuel : Nat) (filterOps : FilterOperations)
    (tables : TablesMetadata) (query : Query) :
    GoResult (SelectBuilder × SelectBuilder) :=
  GoResult.bind (tables.ConvertColumnSelectors query.from_ query.select)
    (fun selectors =>
      let columnsUsed := addSets [] selectors
      GoResult.bind (quoteAll selectors) (fun cols =>
        let qPage : SelectBuilder := {
          selectCols := cols
          fromTable := Table.StringQuoted query.from_
          joins := [], whereP := none, orderBys := []
          limit := some query.limit, offset := some query.offset }
        let qTotal : SelectBuilder := {
          selectCols := [S "count(*)"]
          fromTable := Table.StringQuoted query.from_
          joins := [], whereP := none, orderBys := []
          limit := none, offset := none }
        GoResult.bind (applyWhere fuel filterOps tables query columnsUsed qPage qTotal)
          (fun r =>
            GoResult.bind (processJoins tables r.1) (fun joins =>
              GoResult.bind (appendJoins joins r.2.1 r.2.2) (fun pq =>
                (applyOrderBys tables query.from_ r.1 query.orderBy pq.1).map
                  (fun qPage3 => (qPage3, pq.2)))))))

/-- The SQL-building front of `API.Query`: validate, then convert; the
driver round-trips that follow are outside the model. -/

def apiQueryPlan (cfg : Config) (fuel : Nat) (tables : TablesMetadata)
    (query : Query) : GoResult (SelectBuilder × SelectBuilder) :=
  GoResult.bind query.Validate (fun _ => convertQuery fuel cfg.filterOperations tables query)

/-! ## Claim C1: join nullability propagation -/

/-- A validating catalog with a nullable relation `aa.rb → bb.id` and a
non-nullable relation `bb.rc → cc.id`. -/

def bugCatalog : TablesMetadata :=
  [(S "aa", { name := S "aa", columns :=
      [(S "rb", { name := S "rb", dataType := S "integer", isNullable := true,
                  relation := some { table := S "bb", column := S "id" } })] }),
   (S "bb", { name := S "bb", columns :=
      [(S "id", { name := S "id", dataType := S "integer", isNullable := false }),
       (S "rc", { name := S "rc", dataType := S "integer", isNullable := false,
                  relation := some { table := S "cc", column := S "id" } })] }),
   (S "cc", { name := S "cc", columns :=
      [(S "id", { name := S "id", dataType := S "integer", isNullable := false }),
       (S "yy", { name := S "yy", dataType := S "text", isNullable := false })] })]

/-- A concrete query for the C5 witness. -/

def pairingQuery : Query :=
  { select := [S "rb"], from_ := S "aa", where_ := none,
    orderBy := [], limit := 7, offset := 2 }

/-! ## Claims C6 and C10: limits -/

/-- A config with schema and defaultLimit left unset. -/

def zeroCfg : Config :=
  { schema := [], defaultLimit := 0,
    filterOperations := [(S "integer", EqualsFilterOperations)],
    columnDefaults := [] }

/-- What `NewAPI` fills `zeroCfg` to. -/

def filledCfg : Config :=
  { schema := S "public", defaultLimit := 200,
    filterOperations := [(S "integer", EqualsFilterOperations)],
    columnDefaults := [] }

/-- A query with a limit far above `maxLimit`. -/

def bigLimitQuery : Query :=
  { select := [S "rb"], from_ := S "aa", where_ := none,
    orderBy := [], limit := 5000, offset := 0 }

/-! ## Theorems -/

@[simp] theorem GoResult.bind_ok (a : α) (f : α → GoResult β) :
    GoResult.bind (.ok a) f = f a := rfl

@[simp] theorem GoResult.bind_error (e : Str) (f : α → GoResult β) :
    GoResult.bind (.error e) f = .error e := rfl

@[simp] theorem GoResult.bind_panic (f : α → GoResult β) :
    GoResult.bind (.panic) f = .panic := rfl

@[simp] theorem GoResult.bind_timeout (f : α → GoResult β) :
    GoResult.bind (.timeout) f = .timeout := rfl

@[simp] theorem GoResult.monad_bind_eq (x : GoResult α) (f : α → GoResult β) :
    (x >>= f) = GoResult.bind x f := rfl

@[simp] theorem GoResult.map_eq (f : α → β) (x : GoResult α) :
    (f <$> x) = GoResult.map f x := rfl

@[simp] theorem GoResult.pure_eq (a : α) : (pure a : GoResult α) = .ok a := rfl

theorem splitDots_ne_nil (l : Str) : splitDots l ≠ [] := by
  induction l with
  | nil => simp [splitDots]
  | cons c rest ih =>
    simp only [splitDots]
    split
    · simp
    · cases h : splitDots rest with
      | nil => simp
      | cons s ss => simp

theorem joinDots_cons (s : Str) (ss : List Str) (h : ss ≠ []) :
    joinDots (s :: ss) = s ++ '.' :: joinDots ss := by
  cases ss with
  | nil => exact absurd rfl h
  | cons t ts => rfl

/-- Splitting then joining on `.` is the identity. -/

theorem joinDots_splitDots (l : Str) : joinDots (splitDots l) = l := by
  induction l with
  | nil => rfl
  | cons c rest ih =>
    simp only [splitDots]
    split
    next h =>
      rw [joinDots_cons _ _ (splitDots_ne_nil rest), ih, h]
      rfl
    next h =>
      cases hs : splitDots rest with
      | nil => exact absurd hs (splitDots_ne_nil rest)
      | cons s ss =>
        rw [hs] at ih
        cases ss with
        | nil => simpa [joinDots] using ih
        | cons t ts =>
          rw [joinDots_cons _ _ (by simp)] at ih ⊢
          simpa using ih

theorem length_splitDots (l : Str) : (splitDots l).length = countDots l + 1 := by
  induction l with
  | nil => simp [splitDots, countDots]
  | cons c rest ih =>
    simp only [splitDots]
    split
    next h =>
      simp [List.length_cons, ih, countDots, h, List.count_cons_self]
    next h =>
      cases hs : splitDots rest with
      | nil => exact absurd hs (splitDots_ne_nil rest)
      | cons s ss =>
        rw [hs] at ih
        simp only [List.length_cons] at ih ⊢
        have : countDots (c :: rest) = countDots rest := by
          simp only [countDots, List.count_cons]
          simp [h]
        omega

theorem pairsOf_of_even :
    ∀ ss : List Str, ss.length % 2 = 0 →
      ∃ ts cs, pairsOf ss = .ok (ts, cs) := by
  intro ss
  induction ss using pairsOf.induct with
  | case1 => intro _; exact ⟨[], [], rfl⟩
  | case2 t => intro h; simp at h
  | case3 t c rest ih =>
    intro h
    simp only [List.length_cons] at h
    have h2 : rest.length % 2 = 0 := by omega
    obtain ⟨ts, cs, hts⟩ := ih h2
    exact ⟨t :: ts, c :: cs, by simp [pairsOf, hts, GoResult.map]⟩

theorem pairsOf_ok_spec :
    ∀ ss ts cs, pairsOf ss = .ok (ts, cs) →
      ts.length = cs.length ∧ interleavePairs ts cs = ss := by
  intro ss
  induction ss using pairsOf.induct with
  | case1 =>
    intro ts cs h
    simp only [pairsOf] at h
    cases h
    exact ⟨rfl, rfl⟩
  | case2 t =>
    intro ts cs h
    simp [pairsOf] at h
  | case3 t c rest ih =>
    intro ts cs h
    simp only [pairsOf] at h
    cases hr : pairsOf rest with
    | ok p =>
      rw [hr] at h
      simp only [GoResult.map] at h
      cases h
      obtain ⟨h1, h2⟩ := ih p.1 p.2 (by rw [hr])
      refine ⟨by simp [h1], ?_⟩
      simp [interleavePairs, h2]
    | error e => rw [hr] at h; simp [GoResult.map] at h
    | panic => rw [hr] at h; simp [GoResult.map] at h
    | timeout => rw [hr] at h; simp [GoResult.map] at h

/-! ## Claims C7 and C8: selector round-trip, identifier validity -/

theorem splitDots_length_even_of_valid (x : Str)
    (h : ColumnSelectorFull.IsValid x = true) :
    (splitDots x).length % 2 = 0 := by
  unfold ColumnSelectorFull.IsValid at h
  rw [length_splitDots]
  split at h
  · simp at h
  · split at h
    · simp at h
    · next h2 => omega

/-- C7: for every valid `ColumnSelectorFull`, rebuilding from the two
sequences returned by `Breakdown` yields the selector back (and neither
step panics). -/

theorem breakdown_rebuild_roundtrip (x : Str)
    (h : ColumnSelectorFull.IsValid x = true) :
    GoResult.bind (ColumnSelectorFull.Breakdown x)
      (fun p => ColumnSelectorRebuild p.1 p.2) = .ok x := by
  obtain ⟨ts, cs, hts⟩ := pairsOf_of_even _ (splitDots_length_even_of_valid x h)
  obtain ⟨hlen, hint⟩ := pairsOf_ok_spec _ _ _ hts
  rw [ColumnSelectorFull.Breakdown, hts, GoResult.bind_ok]
  rw [ColumnSelectorRebuild]
  simp only [hlen, ne_eq, not_true_eq_false, if_false, ite_false]
  rw [hint, joinDots_splitDots]

/-- Witness for C7 at the concrete selector `ta.ca`. -/

theorem breakdown_rebuild_roundtrip_witness :
    ColumnSelectorFull.IsValid (S "ta.ca") = true ∧
      GoResult.bind (ColumnSelectorFull.Breakdown (S "ta.ca"))
        (fun p => ColumnSelectorRebuild p.1 p.2) = .ok (S "ta.ca") :=
  ⟨by decide, breakdown_rebuild_roundtrip _ (by decide)⟩

/-- C8: `Table.IsValid` and `Column.IsValid` accept exactly the strings
matching the 2–64-character lower-initial identifier pattern; names of
exactly 63 characters in the identifier alphabet are accepted, while the
empty string and single-character names are rejected. -/

theorem name_validity_characterization :
    (∀ s : Str, Table.IsValid s = true ↔
        (2 ≤ s.length ∧ s.length ≤ 64 ∧
          s.head?.all isLowerAlpha = true ∧ s.tail.all isIdentChar = true))
    ∧ (∀ s : Str, Column.IsValid s = Table.IsValid s)
    ∧ longName63.length = 63
    ∧ Table.IsValid longName63 = true
    ∧ Column.IsValid longName63 = true
    ∧ Table.IsValid [] = false
    ∧ Column.IsValid [] = false
    ∧ (∀ c : Char, Table.IsValid [c] = false ∧ Column.IsValid [c] = false) := by
  refine ⟨?_, fun _ => rfl, by decide, by decide, by decide, rfl, rfl, ?_⟩
  · intro s
    cases s with
    | nil => simp [Table.IsValid, nameRegexMatch]
    | cons c rest =>
      simp only [Table.IsValid, nameRegexMatch, Bool.and_eq_true, decide_eq_true_eq,
        List.length_cons, List.head?_cons, List.tail_cons, Option.all_some]
      constructor
      · rintro ⟨⟨⟨h1, h2⟩, h3⟩, h4⟩
        exact ⟨by omega, by omega, h1, h4⟩
      · rintro ⟨h1, h2, h3, h4⟩
        exact ⟨⟨⟨h3, by omega⟩, by omega⟩, h4⟩
  · intro c
    constructor <;> simp [Table.IsValid, Column.IsValid, nameRegexMatch]

/-! ## Claim C9: the `ColumnSelectorRebuild` panic is unreachable through
`ConvertColumnSelector` -/

theorem convertLoop_ne_panic (ts : TablesMetadata) :
    ∀ table columns, convertLoop ts table columns ≠ .panic := by
  intro table columns
  induction columns generalizing table with
  | nil => simp [convertLoop]
  | cons c rest' ih =>
    cases rest' with
    | nil =>
      simp only [convertLoop]
      cases hl : ts.lookup table with
      | none => simp
      | some tm =>
        cases hc : tm.columns.lookup c with
        | none => simp [hc]
        | some _ => simp [hc]
    | cons c2 rest =>
      simp only [convertLoop]
      cases hl : ts.lookup table with
      | none => simp
      | some tm =>
        simp only
        cases hc : tm.columns.lookup c with
        | none => simp
        | some tc =>
          simp only
          cases hr : tc.relation with
          | none => simp
          | some r =>
            simp only
            cases hv : convertLoop ts r.table (c2 :: rest) with
            | ok l => simp [hv, GoResult.map]
            | error e => simp [hv, GoResult.map]
            | panic => exact absurd hv (ih r.table)
            | timeout => simp [hv, GoResult.map]

/-- C9: `ConvertColumnSelector` never panics — in particular, the explicit
length check before `ColumnSelectorRebuild` makes the panic inside
`ColumnSelectorRebuild` unreachable. -/

theorem convertColumnSelector_no_panic (ts : TablesMetadata)
    (baseTable cs : Str) :
    ts.ConvertColumnSelector baseTable cs ≠ .panic := by
  by_cases h0 : (ColumnSelector.GetColumns cs).length = 0
  · simp [TablesMetadata.ConvertColumnSelector, h0]
  · simp only [TablesMetadata.ConvertColumnSelector, h0, if_false]
    cases hv : convertLoop ts baseTable (ColumnSelector.GetColumns cs) with
    | ok tables =>
      simp only [hv, GoResult.bind_ok, GoResult.monad_bind_eq]
      split
      · simp
      · next hlen =>
        unfold ColumnSelectorRebuild
        rw [if_neg hlen]
        simp
    | error e => simp [hv]
    | panic => exact absurd hv (convertLoop_ne_panic ts baseTable _)
    | timeout => simp [hv]

theorem flattenFuel_cyc_timeout :
    ∀ n result parents,
      flattenFuel cycCatalog n result parents (S "aa") = .timeout := by
  intro n
  induction n with
  | zero => intro result parents; rfl
  | succ n ih =>
    intro result parents
    have h1 : flattenFuel cycCatalog (n + 1) result parents (S "aa")
        = flattenColsGo (flattenFuel cycCatalog n) result parents
            [(S "ra", cycColumn)] := rfl
    rw [h1]
    simp only [flattenColsGo, cycColumn]
    rw [ih]

/-- C2 counterexample: the catalog `cycCatalog` validates, yet
`FlattenColumns` started at its base table exhausts every fuel bound: the
source recursion, which has no cycle guard, does not terminate on it. -/

theorem flattenColumns_cyclic_diverges :
    TablesMetadata.ValidateB cycCatalog = true ∧
      ¬ FlattenTerminates cycCatalog (S "aa") := by
  refine ⟨by decide, ?_⟩
  rintro ⟨n, hn⟩
  exact hn (flattenFuel_cyc_timeout n [] [])

theorem lookup_mem {β : Type} :
    ∀ {l : List (Str × β)} {k : Str} {v : β},
      l.lookup k = some v → (k, v) ∈ l := by
  intro l
  induction l with
  | nil => intro k v h; simp [List.lookup] at h
  | cons p t ih =>
    intro k v h
    obtain ⟨a, b⟩ := p
    simp only [List.lookup] at h
    split at h
    · next hbeq =>
      cases h
      have hka : k = a := eq_of_beq hbeq
      subst hka
      exact List.mem_cons_self _ _
    · exact List.mem_cons_of_mem _ (ih h)

theorem flattenColsGo_ne_timeout
    (recur : List (Str × ColumnMetadata) → List Str → Str →
      GoResult (List (Str × ColumnMetadata)))
    (colsList : List (Str × ColumnMetadata))
    (h : ∀ res cols p, p ∈ colsList → ∀ r, p.2.relation = some r →
      recur res cols r.table ≠ .timeout) :
    ∀ result parents, flattenColsGo recur result parents colsList ≠ .timeout := by
  induction colsList with
  | nil => intro result parents; simp [flattenColsGo]
  | cons p rest ih =>
    intro result parents
    obtain ⟨column, colMeta⟩ := p
    simp only [flattenColsGo]
    cases hr : colMeta.relation with
    | none =>
      exact ih (fun res cols q hq => h res cols q (List.mem_cons_of_mem _ hq)) _ _
    | some r =>
      simp only
      cases hv : recur (mapInsert result (NewColumnSelector (parents ++ [column])) colMeta)
          (parents ++ [column]) r.table with
      | ok result3 =>
        exact ih (fun res cols q hq => h res cols q (List.mem_cons_of_mem _ hq)) _ _
      | error e => simp
      | panic => simp
      | timeout =>
        exact absurd hv (h _ _ (column, colMeta) (List.mem_cons_self _ _) r hr)

theorem flattenFuel_ne_timeout (ts : TablesMetadata) (rank : Str → Nat)
    (h : rankDecreasingB ts rank = true) :
    ∀ n table, rank table < n →
      ∀ result parents, flattenFuel ts n result parents table ≠ .timeout := by
  intro n
  induction n with
  | zero => intro table h0; omega
  | succ n ih =>
    intro table hlt result parents
    rw [flattenFuel]
    cases hl : ts.lookup table with
    | none => simp
    | some tm =>
      apply flattenColsGo_ne_timeout
      intro res cols p hp r hr
      apply ih
      have hmem := lookup_mem hl
      simp only [rankDecreasingB, List.all_eq_true] at h
      have h2 := h (table, tm) hmem p hp
      rw [hr] at h2
      simp only [decide_eq_true_eq] at h2
      omega

/-- C2 (amended): given a rank function strictly decreasing along every
foreign-key relation (i.e. the relation graph is acyclic), `FlattenColumns`
terminates within fuel `rank base + 1`. -/

theorem flattenColumns_terminates_of_acyclic_rank (ts : TablesMetadata)
    (rank : Str → Nat) (h : rankDecreasingB ts rank = true) (baseTable : Str) :
    FlattenColumnsFuel ts (rank baseTable + 1) baseTable ≠ .timeout :=
  flattenFuel_ne_timeout ts rank h _ baseTable (by omega) [] []

/-- Witness for the amended C2 on the concrete acyclic catalog. -/

theorem flattenColumns_terminates_witness :
    rankDecreasingB acyCatalog acyRank = true ∧
      FlattenColumnsFuel acyCatalog (acyRank (S "aa") + 1) (S "aa") ≠ .timeout :=
  ⟨by decide, flattenColumns_terminates_of_acyclic_rank _ _ (by decide) _⟩

theorem strLeB_total (a : Str) : ∀ b, strLeB a b = true ∨ strLeB b a = true := by
  induction a with
  | nil => intro b; left; rfl
  | cons x xs ih =>
    intro b
    cases b with
    | nil => right; rfl
    | cons y ys =>
      by_cases hxy : x < y
      · left; simp [strLeB, hxy]
      · by_cases hyx : y < x
        · right; simp [strLeB, hyx]
        · rcases ih ys with h | h
          · left; simp [strLeB, hxy, hyx, h]
          · right; simp [strLeB, hxy, hyx, h]

theorem strLeB_trans :
    ∀ a b c : Str, strLeB a b = true → strLeB b c = true → strLeB a c = true := by
  intro a
  induction a with
  | nil => intro b c _ _; rfl
  | cons x xs ih =>
    intro b c h1 h2
    cases b with
    | nil => simp [strLeB] at h1
    | cons y ys =>
      cases c with
      | nil => simp [strLeB] at h2
      | cons z zs =>
        simp only [strLeB] at h1 h2 ⊢
        by_cases hxy : x < y
        · by_cases hyz : y < z
          · simp [lt_trans hxy hyz]
          · by_cases hzy : z < y
            · simp [hyz, hzy] at h2
            · have hyzeq : y = z := le_antisymm (not_lt.mp hzy) (not_lt.mp hyz)
              subst hyzeq
              simp [hxy]
        · by_cases hyx : y < x
          · simp [hxy, hyx] at h1
          · have hxyeq : x = y := le_antisymm (not_lt.mp hyx) (not_lt.mp hxy)
            subst hxyeq
            rw [if_neg hxy, if_neg hyx] at h1
            by_cases hxz : x < z
            · simp [hxz]
            · by_cases hzx : z < x
              · simp [hxz, hzx] at h2
              · rw [if_neg hxz, if_neg hzx] at h2 ⊢
                exact ih ys zs h1 h2

theorem insertSorted_perm (x : Str) (l : List Str) :
    List.Perm (insertSorted x l) (x :: l) := by
  induction l with
  | nil => exact List.Perm.refl _
  | cons y ys ih =>
    simp only [insertSorted]
    split
    · exact List.Perm.refl _
    · exact ((ih.cons y).trans (List.Perm.swap x y ys))

theorem sortStrs_perm (l : List Str) : List.Perm (sortStrs l) l := by
  induction l with
  | nil => exact List.Perm.refl _
  | cons x xs ih => exact (insertSorted_perm x (sortStrs xs)).trans (ih.cons x)

theorem insertSorted_sorted (x : Str) (l : List Str) (h : StrSorted l) :
    StrSorted (insertSorted x l) := by
  induction l with
  | nil => simp [insertSorted, StrSorted]
  | cons y ys ih =>
    rcases List.pairwise_cons.mp h with ⟨hy, hys⟩
    simp only [insertSorted]
    split
    · next hxy =>
      refine List.Pairwise.cons ?_ h
      intro z hz
      rcases List.mem_cons.mp hz with hz | hz
      · subst hz; exact hxy
      · exact strLeB_trans x y z hxy (hy z hz)
    · next hxy =>
      refine List.Pairwise.cons ?_ (ih hys)
      intro z hz
      have hz' := (insertSorted_perm x ys).mem_iff.mp hz
      rcases List.mem_cons.mp hz' with hz' | hz'
      · rw [hz']
        rcases strLeB_total x y with h' | h'
        · exact absurd h' (by simpa using hxy)
        · exact h'
      · exact hy z hz'

theorem sortStrs_sorted (l : List Str) : StrSorted (sortStrs l) := by
  induction l with
  | nil => simp [sortStrs, StrSorted]
  | cons x xs ih => exact insertSorted_sorted x (sortStrs xs) ih

theorem mem_uniqueLoop :
    ∀ xs seen y, y ∈ uniqueLoop seen xs ↔ (y ∈ xs ∧ y ∉ seen) := by
  intro xs
  induction xs with
  | nil => intro seen y; simp [uniqueLoop]
  | cons x rest ih =>
    intro seen y
    simp only [uniqueLoop]
    split
    · next hx =>
      have hxseen : x ∈ seen := by simpa using hx
      rw [ih]
      constructor
      · rintro ⟨h1, h2⟩; exact ⟨List.mem_cons_of_mem _ h1, h2⟩
      · rintro ⟨h1, h2⟩
        rcases List.mem_cons.mp h1 with h1 | h1
        · subst h1; exact absurd hxseen h2
        · exact ⟨h1, h2⟩
    · next hx =>
      have hxseen : x ∉ seen := by simpa using hx
      simp only [List.mem_cons, ih]
      constructor
      · rintro (h1 | ⟨h1, h2⟩)
        · subst h1; exact ⟨Or.inl rfl, hxseen⟩
        · refine ⟨Or.inr h1, fun hc => h2 (Or.inr hc)⟩
      · rintro ⟨h1 | h1, h2⟩
        · exact Or.inl h1
        · by_cases hyx : y = x
          · exact Or.inl hyx
          · exact Or.inr ⟨h1, fun hc => hc.elim hyx h2⟩

theorem nodup_uniqueLoop : ∀ xs seen, (uniqueLoop seen xs).Nodup := by
  intro xs
  induction xs with
  | nil => intro seen; simp [uniqueLoop]
  | cons x rest ih =>
    intro seen
    simp only [uniqueLoop]
    split
    · exact ih seen
    · refine List.Nodup.cons ?_ (ih (x :: seen))
      intro hx
      exact ((mem_uniqueLoop rest (x :: seen) x).mp hx).2 (List.mem_cons_self _ _)

theorem uniqueSliceString_sorted (xs : List Str) :
    StrSorted (uniqueSliceString xs) := sortStrs_sorted _

theorem uniqueSliceString_nodup (xs : List Str) :
    (uniqueSliceString xs).Nodup :=
  ((sortStrs_perm _).nodup_iff).mpr (nodup_uniqueLoop xs [])

theorem mem_uniqueSliceString (xs : List Str) (y : Str) :
    y ∈ uniqueSliceString xs ↔ y ∈ xs := by
  rw [uniqueSliceString, (sortStrs_perm _).mem_iff, mem_uniqueLoop]
  simp

/-- C3 counterexample: with an absent (nil or empty) comment the source
returns the default verbatim, skipping every post-processing step — so a
behavior with `allowFiltering = false` and a non-empty `filterOperations`
list is returned, contradicting the claim for absent comments. -/

theorem parseAndMerge_absent_comment_counterexample :
    parseAndMergeColumnBehavior [(S "integer", pathologicalDefault)]
        (S "integer") none = .ok pathologicalDefault
      ∧ pathologicalDefault.allowFiltering = false
      ∧ pathologicalDefault.filterOperations ≠ [] :=
  ⟨rfl, rfl, by decide⟩

/-- C3 (amended): for a *present* comment the claim holds: each
merge-controlled field equals the comment's value iff its key is present
and the default's otherwise; if the merged `allowFiltering` is false the
final operation list is empty; if it is true the final list is the
deduplicated, byte-wise sorted set of the merged operations plus — unless
`omitDefaultFilterOperations` — the default's operations (which are then
all included).  An absent or empty comment instead returns the default
unchanged. -/

theorem parseAndMerge_present_comment_spec
    (columnDefaults : List (Str × ColumnBehavior)) (dataType : Str)
    (d : ColumnBehavior) (c : CommentJSON)
    (hd : columnDefaults.lookup dataType = some d) :
    ∃ b, parseAndMergeColumnBehavior columnDefaults dataType (some c) = .ok b
      ∧ b.allowSorting = c.allowSorting.getD d.allowSorting
      ∧ b.allowFiltering = c.allowFiltering.getD d.allowFiltering
      ∧ b.omitDefaultFilterOperations
          = c.omitDefaultFilterOperations.getD d.omitDefaultFilterOperations
      ∧ (b.allowFiltering = false → b.filterOperations = [])
      ∧ (b.allowFiltering = true →
          b.filterOperations = uniqueSliceString
            ((c.filterOperations.getD d.filterOperations) ++
              (if c.omitDefaultFilterOperations.getD d.omitDefaultFilterOperations
                then [] else d.filterOperations))
          ∧ StrSorted b.filterOperations ∧ b.filterOperations.Nodup
          ∧ (b.omitDefaultFilterOperations = false →
              ∀ op ∈ d.filterOperations, op ∈ b.filterOperations)) := by
  have heq : parseAndMergeColumnBehavior columnDefaults dataType (some c) = .ok
      { properties := c.properties.getD []
        allowSorting := c.allowSorting.getD d.allowSorting
        allowFiltering := c.allowFiltering.getD d.allowFiltering
        omitDefaultFilterOperations :=
          c.omitDefaultFilterOperations.getD d.omitDefaultFilterOperations
        filterOperations :=
          if c.allowFiltering.getD d.allowFiltering
          then uniqueSliceString
            ((c.filterOperations.getD d.filterOperations) ++
              (if c.omitDefaultFilterOperations.getD d.omitDefaultFilterOperations
                then [] else d.filterOperations))
          else [] } := by
    simp only [parseAndMergeColumnBehavior, hd]
    cases hom : c.omitDefaultFilterOperations.getD d.omitDefaultFilterOperations <;>
      cases haf : c.allowFiltering.getD d.allowFiltering <;>
        simp [hom, haf]
  refine ⟨_, heq, rfl, rfl, rfl, ?_, ?_⟩
  · intro h
    replace h : c.allowFiltering.getD d.allowFiltering = false := h
    simp [h]
  · intro h
    replace h : c.allowFiltering.getD d.allowFiltering = true := h
    refine ⟨by simp [h], by simp [h, uniqueSliceString_sorted],
      by simp [h, uniqueSliceString_nodup], ?_⟩
    intro hom0 op hop
    replace hom0 :
        c.omitDefaultFilterOperations.getD d.omitDefaultFilterOperations = false := hom0
    simp only [h, if_true, hom0, if_false, mem_uniqueSliceString, List.mem_append]
    exact Or.inr hop

/-- Witness for the amended C3 at a concrete default and comment. -/

theorem parseAndMerge_present_comment_witness :
    ∃ b, parseAndMergeColumnBehavior
        [(S "text", { allowFiltering := true, filterOperations := [S "contains"] })]
        (S "text")
        (some { allowSorting := some true,
                filterOperations := some [S "equals", S "contains"] }) = .ok b
      ∧ b.allowSorting = true
      ∧ b.allowFiltering = true
      ∧ b.omitDefaultFilterOperations = false
      ∧ b.filterOperations = [S "contains", S "equals"] := by
  obtain ⟨b, h1, h2, h3, h4, _, h6⟩ :=
    parseAndMerge_present_comment_spec
      [(S "text", { allowFiltering := true, filterOperations := [S "contains"] })]
      (S "text")
      { allowFiltering := true, filterOperations := [S "contains"] }
      { allowSorting := some true,
        filterOperations := some [S "equals", S "contains"] }
      rfl
  refine ⟨b, h1, by simpa using h2, by simpa using h3, by simpa using h4, ?_⟩
  have := (h6 (by simpa using h3)).1
  simpa using this

/-! ## Claim C4: null-safe predicate compilers -/

theorem and3_false_left (x : Option Bool) : and3 (some false) x = some false := by
  cases x with
  | none => rfl
  | some b => cases b <;> rfl

theorem evalSqlizer_notEq_null (row : Str → Value) (c : Str)
    (h : row c = .null) : evalSqlizer row (.notEq c .null) = some false := by
  simp [evalSqlizer, h]

theorem evalAnd_guard_false (row : Str → Value) (c : Str)
    (rest : List Sqlizer) (h : row c = .null) :
    evalSqlizer row (.and (.notEq c .null :: rest)) = some false := by
  have h1 := evalSqlizer_notEq_null row c h
  show and3 (evalSqlizer row (.notEq c .null)) (evalAnd row rest) = some false
  rw [h1, and3_false_left]

/-- C4: every comparison compiler emits `col IS NOT NULL AND col <op> ?`;
every positive text compiler emits `col IS NOT NULL AND col ILIKE <pat>`
with `contains → %v%`, `endsWith → %v`, `startsWith → v%`; the negative
text compilers emit `col IS NULL OR …`; text `isSpecified`/`isNotSpecified`
additionally treat the empty string as unspecified; and under the
three-valued SQL semantics a NULL column never satisfies a predicate
guarded by `col IS NOT NULL AND …` (they all are). -/

theorem filter_ops_null_safe :
    (∀ c v, applyFilterOp CompareFilterOperations (S "greater") c v
        = some (.ok (.and [.notEq c .null, .gt c v])))
  ∧ (∀ c v, applyFilterOp CompareFilterOperations (S "greaterOrEquals") c v
        = some (.ok (.and [.notEq c .null, .gtOrEq c v])))
  ∧ (∀ c v, applyFilterOp CompareFilterOperations (S "less") c v
        = some (.ok (.and [.notEq c .null, .lt c v])))
  ∧ (∀ c v, applyFilterOp CompareFilterOperations (S "lessOrEquals") c v
        = some (.ok (.and [.notEq c .null, .ltOrEq c v])))
  ∧ (∀ c s, applyFilterOp TextFilterOperations (S "contains") c (.str s)
        = some (.ok (.and [.notEq c .null, .ilike c (S "%" ++ s ++ S "%")])))
  ∧ (∀ c s, applyFilterOp TextFilterOperations (S "endsWith") c (.str s)
        = some (.ok (.and [.notEq c .null, .ilike c (S "%" ++ s)])))
  ∧ (∀ c s, applyFilterOp TextFilterOperations (S "startsWith") c (.str s)
        = some (.ok (.and [.notEq c .null, .ilike c (s ++ S "%")])))
  ∧ (∀ c v, applyFilterOp TextFilterOperations (S "isSpecified") c v
        = some (.ok (.and [.notEq c .null, .notEq c (.str [])])))
  ∧ (∀ c s, applyFilterOp TextFilterOperations (S "notContains") c (.str s)
        = some (.ok (.or [.eq c .null, .notILike c (S "%" ++ s ++ S "%")])))
  ∧ (∀ c v, applyFilterOp TextFilterOperations (S "isNotSpecified") c v
        = some (.ok (.or [.eq c .null, .eq c (.str [])])))
  ∧ (∀ (row : Str → Value) c rest, row c = .null →
        evalSqlizer row (.and (.notEq c .null :: rest)) = some false) :=
  ⟨fun _ _ => rfl, fun _ _ => rfl, fun _ _ => rfl, fun _ _ => rfl,
   fun _ _ => rfl, fun _ _ => rfl, fun _ _ => rfl, fun _ _ => rfl,
   fun _ _ => rfl, fun _ _ => rfl, evalAnd_guard_false⟩

/-- Witness for C4: an all-NULL row does not satisfy the guarded
`greater` predicate. -/

theorem filter_ops_null_safe_witness :
    evalSqlizer (fun _ => Value.null)
      (.and [.notEq (S "xx") .null, .gt (S "xx") (.int 1)]) = some false :=
  filter_ops_null_safe.2.2.2.2.2.2.2.2.2.2
    (fun _ => Value.null) (S "xx") [.gt (S "xx") (.int 1)] rfl

/-- C1: the `continue` taken when a prefix is already in `alreadyJoined`
skips the `parentNull = parentNull || sourceCol.IsNullable` update, so
when the set of resolved selectors is iterated with `aa.rb.bb.rc` before
`aa.rb.bb.rc.cc.yy`, the join into `cc` is emitted INNER although the
relation `aa.rb` on its path is nullable — contradicting the source's own
comment ("we must use LEFT JOIN for all descendants") and the spec.  With
the opposite iteration order (Go map iteration order is unspecified) both
joins are LEFT, and `convertQuery` reaches the same INNER join from
`select = [rb.rc, rb.rc.yy]`. -/

theorem processJoins_nullable_ancestor_inner_join :
    TablesMetadata.ValidateB bugCatalog = true
    ∧ ((bugCatalog.lookup (S "aa")).bind
        (fun tm => tm.columns.lookup (S "rb"))).map (·.isNullable) = some true
    ∧ processJoins bugCatalog [S "aa.rb.bb.rc", S "aa.rb.bb.rc.cc.yy"]
        = .ok [{ useLeftJoin := true, fromSel := S "aa.rb",
                 toSel := S "aa.rb.bb.id" },
               { useLeftJoin := false, fromSel := S "aa.rb.bb.rc",
                 toSel := S "aa.rb.bb.rc.cc.id" }]
    ∧ processJoins bugCatalog [S "aa.rb.bb.rc.cc.yy", S "aa.rb.bb.rc"]
        = .ok [{ useLeftJoin := true, fromSel := S "aa.rb",
                 toSel := S "aa.rb.bb.id" },
               { useLeftJoin := true, fromSel := S "aa.rb.bb.rc",
                 toSel := S "aa.rb.bb.rc.cc.id" }]
    ∧ (∃ qp qt, convertQuery 10 [] bugCatalog
          { select := [S "rb.rc", S "rb.rc.yy"], from_ := S "aa",
            where_ := none, orderBy := [], limit := 5, offset := 0 }
          = .ok (qp, qt)
        ∧ qp.joins.map Prod.fst = [true, false]) :=
  ⟨by decide, rfl, rfl, rfl, ⟨_, _, rfl, rfl⟩⟩

/-! ## Claim C5: the page and total builders share FROM, JOINs and WHERE -/

theorem bind_ok_iff {α β : Type} (x : GoResult α) (f : α → GoResult β) (b : β) :
    GoResult.bind x f = .ok b ↔ ∃ a, x = .ok a ∧ f a = .ok b := by
  cases x <;> simp [GoResult.bind]

theorem map_ok_iff {α β : Type} (f : α → β) (x : GoResult α) (b : β) :
    GoResult.map f x = .ok b ↔ ∃ a, x = .ok a ∧ f a = b := by
  cases x <;> simp [GoResult.map]

theorem applyWhere_spec (fuel : Nat) (filterOps : FilterOperations)
    (tables : TablesMetadata) (query : Query) (cu : List Str)
    (qp qt : SelectBuilder) (cu' : List Str) (qp' qt' : SelectBuilder)
    (h : applyWhere fuel filterOps tables query cu qp qt = .ok (cu', qp', qt')) :
    (qp.whereP = qt.whereP → qp'.whereP = qt'.whereP)
    ∧ qp'.joins = qp.joins ∧ qp'.fromTable = qp.fromTable
    ∧ qp'.limit = qp.limit ∧ qp'.offset = qp.offset
    ∧ qp'.selectCols = qp.selectCols ∧ qp'.orderBys = qp.orderBys
    ∧ qt'.joins = qt.joins ∧ qt'.fromTable = qt.fromTable
    ∧ qt'.limit = qt.limit ∧ qt'.offset = qt.offset
    ∧ qt'.selectCols = qt.selectCols ∧ qt'.orderBys = qt.orderBys := by
  unfold applyWhere at h
  cases hw : query.where_ with
  | none =>
    rw [hw] at h
    cases h
    exact ⟨fun h => h, rfl, rfl, rfl, rfl, rfl, rfl, rfl, rfl, rfl, rfl, rfl, rfl⟩
  | some w =>
    rw [hw] at h
    rw [bind_ok_iff] at h
    obtain ⟨qc, _, h⟩ := h
    cases h
    exact ⟨fun _ => rfl, rfl, rfl, rfl, rfl, rfl, rfl, rfl, rfl, rfl, rfl, rfl, rfl⟩

theorem appendJoins_spec :
    ∀ (js : List TableJoin) (qp qt qp' qt' : SelectBuilder),
      appendJoins js qp qt = .ok (qp', qt') →
        (qp.joins = qt.joins → qp'.joins = qt'.joins)
        ∧ qp'.fromTable = qp.fromTable ∧ qp'.whereP = qp.whereP
        ∧ qp'.limit = qp.limit ∧ qp'.offset = qp.offset
        ∧ qp'.orderBys = qp.orderBys ∧ qp'.selectCols = qp.selectCols
        ∧ qt'.fromTable = qt.fromTable ∧ qt'.whereP = qt.whereP
        ∧ qt'.limit = qt.limit ∧ qt'.offset = qt.offset
        ∧ qt'.orderBys = qt.orderBys ∧ qt'.selectCols = qt.selectCols := by
  intro js
  induction js with
  | nil =>
    intro qp qt qp' qt' h
    cases h
    exact ⟨fun h => h, rfl, rfl, rfl, rfl, rfl, rfl, rfl, rfl, rfl, rfl, rfl, rfl⟩
  | cons j rest ih =>
    intro qp qt qp' qt' h
    simp only [appendJoins, bind_ok_iff] at h
    obtain ⟨pc, _, lastT, _, fq, _, tq, _, h⟩ := h
    obtain ⟨hj, p1, p2, p3, p4, p5, p6, t1, t2, t3, t4, t5, t6⟩ := ih _ _ _ _ h
    refine ⟨fun he => hj (by simp [he]), by simp [p1], by simp [p2], by simp [p3],
      by simp [p4], by simp [p5], by simp [p6], by simp [t1], by simp [t2],
      by simp [t3], by simp [t4], by simp [t5], by simp [t6]⟩

theorem applyOrderBys_spec :
    ∀ (obs : List OrderByExpression) (tables : TablesMetadata) (fromT : Str)
      (cu : List Str) (qp qp' : SelectBuilder),
      applyOrderBys tables fromT cu obs qp = .ok qp' →
        qp'.fromTable = qp.fromTable ∧ qp'.whereP = qp.whereP
        ∧ qp'.joins = qp.joins ∧ qp'.limit = qp.limit
        ∧ qp'.offset = qp.offset ∧ qp'.selectCols = qp.selectCols := by
  intro obs
  induction obs with
  | nil =>
    intro tables fromT cu qp qp' h
    cases h
    exact ⟨rfl, rfl, rfl, rfl, rfl, rfl⟩
  | cons ob rest ih =>
    intro tables fromT cu qp qp' h
    simp only [applyOrderBys, bind_ok_iff] at h
    obtain ⟨cs, _, h⟩ := h
    split at h
    · cases h
    · rw [bind_ok_iff] at h
      obtain ⟨cq, _, h⟩ := h
      obtain ⟨p1, p2, p3, p4, p5, p6⟩ := ih _ _ _ _ _ h
      exact ⟨by simp [p1], by simp [p2], by simp [p3], by simp [p4],
        by simp [p5], by simp [p6]⟩

/-- Everything `convertQuery` guarantees about a successfully built pair:
shared FROM, identical join lists (flags included), identical WHERE
predicate (bind values are part of the predicate AST), and the page-only
parts. -/

theorem convertQuery_ok_spec (fuel : Nat) (filterOps : FilterOperations)
    (tables : TablesMetadata) (query : Query) (qp qt : SelectBuilder)
    (h : convertQuery fuel filterOps tables query = .ok (qp, qt)) :
    qp.fromTable = Table.StringQuoted query.from_
    ∧ qt.fromTable = Table.StringQuoted query.from_
    ∧ qp.joins = qt.joins
    ∧ qp.whereP = qt.whereP
    ∧ qt.selectCols = [S "count(*)"]
    ∧ qt.orderBys = []
    ∧ qt.limit = none ∧ qt.offset = none
    ∧ qp.limit = some query.limit ∧ qp.offset = some query.offset := by
  unfold convertQuery at h
  simp only [bind_ok_iff, map_ok_iff] at h
  obtain ⟨selectors, hsel, cols, hquote, r, hw, joins, hpj, pq, hap, q3, hob, hfin⟩ := h
  obtain ⟨cu2, qp2, qt2⟩ := r
  obtain ⟨pq1, pq2⟩ := pq
  dsimp only at hw hpj hap hob hfin
  cases hfin
  obtain ⟨w0, wp1, wp2, wp3, wp4, wp5, wp6, wt1, wt2, wt3, wt4, wt5, wt6⟩ :=
    applyWhere_spec _ _ _ _ _ _ _ _ _ _ hw
  obtain ⟨aj0, ap1, ap2, ap3, ap4, ap5, ap6, at1, at2, at3, at4, at5, at6⟩ :=
    appendJoins_spec _ _ _ _ _ hap
  obtain ⟨op1, op2, op3, op4, op5, op6⟩ := applyOrderBys_spec _ _ _ _ _ _ hob
  refine ⟨?_, ?_, ?_, ?_, ?_, ?_, ?_, ?_, ?_, ?_⟩
  · rw [op1, ap1, wp2]
  · rw [at1, wt2]
  · rw [op3]
    exact aj0 (by rw [wp1, wt1])
  · rw [op2, ap2, at2]
    exact w0 rfl
  · rw [at6, wt5]
  · rw [at5, wt6]
  · rw [at3, wt3]
  · rw [at4, wt4]
  · rw [op4, ap3, wp3]
  · rw [op5, ap4, wp4]

/-- C5: the page and total builders returned by `convertQuery` share an
identical FROM table, identical join clauses with identical LEFT/INNER
flags, and an identical WHERE predicate (bind values included); only the
page builder carries the SELECT list, ORDER BY, LIMIT and OFFSET, while
the total builder selects `count(*)`. -/

theorem convertQuery_page_total_pairing (fuel : Nat)
    (filterOps : FilterOperations) (tables : TablesMetadata) (query : Query)
    (qp qt : SelectBuilder)
    (h : convertQuery fuel filterOps tables query = .ok (qp, qt)) :
    qp.fromTable = qt.fromTable
    ∧ qp.joins = qt.joins
    ∧ qp.whereP = qt.whereP
    ∧ qt.selectCols = [S "count(*)"]
    ∧ qt.orderBys = [] ∧ qt.limit = none ∧ qt.offset = none
    ∧ qp.limit = some query.limit ∧ qp.offset = some query.offset := by
  obtain ⟨h1, h2, h3, h4, h5, h6, h7, h8, h9, h10⟩ :=
    convertQuery_ok_spec _ _ _ _ _ _ h
  exact ⟨h1.trans h2.symm, h3, h4, h5, h6, h7, h8, h9, h10⟩

/-- Witness for C5 at a concrete catalog and query. -/

theorem convertQuery_page_total_pairing_witness :
    ∃ qp qt, convertQuery 10 [] acyCatalog pairingQuery = .ok (qp, qt)
      ∧ (qp.fromTable = qt.fromTable ∧ qp.joins = qt.joins
          ∧ qp.whereP = qt.whereP ∧ qt.selectCols = [S "count(*)"]
          ∧ qt.orderBys = [] ∧ qt.limit = none ∧ qt.offset = none
          ∧ qp.limit = some 7 ∧ qp.offset = some 2) :=
  ⟨_, _, rfl,
    convertQuery_page_total_pairing 10 [] acyCatalog pairingQuery _ _ rfl⟩

/-- C6 counterexample: `NewAPI` fills `defaultLimit = 200` into the
*configuration*, but a query whose limit was left unset (zero) is rejected
by validation — the configured default is never substituted into the
query, so the claim's "is used for the query instead" fails. -/

theorem defaultLimit_not_substituted_into_query :
    NewAPI zeroCfg = .ok filledCfg
    ∧ filledCfg.defaultLimit = 200
    ∧ apiQueryPlan filledCfg 10 acyCatalog
        { select := [S "rb"], from_ := S "aa", where_ := none,
          orderBy := [], limit := 0, offset := 0 }
        = .error (S "invalid limit") :=
  ⟨rfl, rfl, rfl⟩

theorem configValidate_defaultLimit_bounds :
    ∀ (c : Config) (u : Unit), Config.Validate c = .ok u →
      c.defaultLimit ≠ 0 ∧ c.defaultLimit ≤ maxLimit := by
  intro c u h
  unfold Config.Validate at h
  split at h
  · cases h
  · split at h
    · cases h
    · split at h
      · cases h
      · next hgt =>
        rename_i hschema hbeq
        exact ⟨by simpa using hbeq, by omega⟩

/-- C6 (amended): a query whose limit is zero is rejected as invalid;
`NewAPI` substitutes `defaultLimit = 200` into the configuration when the
caller has not set one, and the configured defaultLimit is bounded by
`1 ≤ defaultLimit ≤ maxLimit = 1000`; no substitution into queries
occurs (see the counterexample theorem for the latter). -/

theorem limit_zero_rejected_default_bounded :
    (∀ q : Query, q.limit = 0 → Query.Validate q ≠ .ok ())
  ∧ (∀ c c2, NewAPI c = .ok c2 →
      1 ≤ c2.defaultLimit ∧ c2.defaultLimit ≤ maxLimit)
  ∧ (∀ c c2, c.defaultLimit = 0 → NewAPI c = .ok c2 →
      c2.defaultLimit = 200) := by
  refine ⟨?_, ?_, ?_⟩
  · intro q hq hok
    unfold Query.Validate at hok
    split at hok
    · cases hok
    · split at hok
      · cases hok
      · split at hok
        · cases hok
        · split at hok
          · cases hok
          · next hlim => exact hlim (by omega)
  · intro c c2 hok
    simp only [NewAPI, bind_ok_iff] at hok
    obtain ⟨u, hval, heq⟩ := hok
    cases heq
    obtain ⟨hne, hle⟩ := configValidate_defaultLimit_bounds _ _ hval
    exact ⟨by omega, hle⟩
  · intro c c2 h0 hok
    simp only [NewAPI, bind_ok_iff] at hok
    obtain ⟨u, hval, heq⟩ := hok
    cases heq
    by_cases hs : c.schema.isEmpty <;> simp [hs, h0, defaultLimitConst]

/-- Witness for the amended C6. -/

theorem limit_zero_rejected_default_bounded_witness :
    Query.Validate
      { select := [S "rb"], from_ := S "aa", where_ := none,
        orderBy := [], limit := 0, offset := 0 } ≠ .ok ()
    ∧ (1 ≤ filledCfg.defaultLimit ∧ filledCfg.defaultLimit ≤ maxLimit)
    ∧ filledCfg.defaultLimit = 200 :=
  ⟨limit_zero_rejected_default_bounded.1 _ rfl,
   limit_zero_rejected_default_bounded.2.1 zeroCfg filledCfg rfl,
   limit_zero_rejected_default_bounded.2.2 zeroCfg filledCfg rfl rfl⟩

/-- C10: `Query.Validate` accepts every limit ≥ 1 with no upper bound
(the `maxLimit` ceiling is enforced only against the configured
defaultLimit, see the C6 theorems), and a successfully converted query
carries its limit unchanged into the page builder while the total builder
has none. -/

theorem query_limit_unbounded :
    (∀ q : Query, q.select.isEmpty = false → Table.IsValid q.from_ = true →
        (match q.where_ with
         | some w => w.validateB
         | none => true) = true →
        1 ≤ q.limit → Query.Validate q = .ok ())
  ∧ (∀ (fuel : Nat) (filterOps : FilterOperations) (tables : TablesMetadata)
        (q : Query) (qp qt : SelectBuilder),
        convertQuery fuel filterOps tables q = .ok (qp, qt) →
        qp.limit = some q.limit ∧ qt.limit = none) := by
  refine ⟨?_, ?_⟩
  · intro q h1 h2 h3 h4
    unfold Query.Validate
    rw [if_neg (by simp [h1]), if_neg (by simp [h2]), if_neg (by simp [h3]),
      if_neg (by omega)]
  · intro fuel filterOps tables q qp qt h
    obtain ⟨_, _, _, _, _, _, h7, _, h9, _⟩ := convertQuery_ok_spec _ _ _ _ _ _ h
    exact ⟨h9, h7⟩

/-- Witness for C10: a per-query limit of 5000 > 1000 passes validation
and is emitted unchanged into the page builder. -/

theorem query_limit_unbounded_witness :
    Query.Validate bigLimitQuery = .ok ()
    ∧ ∃ qp qt, convertQuery 10 [] acyCatalog bigLimitQuery = .ok (qp, qt)
        ∧ qp.limit = some 5000 :=
  ⟨query_limit_unbounded.1 bigLimitQuery rfl (by decide) rfl (by decide),
   ⟨_, _, rfl,
    (query_limit_unbounded.2 10 [] acyCatalog bigLimitQuery _ _ rfl).1⟩⟩

end Pgd

